import Mathlib

/-!
# Verification of the learnXAI internship-harvester subsystem

Shallow embedding of the opportunity-listing harvester of the `learnXAI`
repository, covering:

* `src/mcp-internship-scraper/scraper.py` — `InternshipScraper`
  (`_calculate_relevance_score`, the adaptive filter inside `scrape_indeed`,
  the title-escalation logic inside `_parse_indeed_html`,
  `scrape_all_sources` and its dedup pass);
* `src/ai-backend/main.py` — the `/api/internships/scrape` endpoint
  (`scrape_internships`) and the final aggregation step of the streaming
  variant (`scrape_internships_stream`).

Python strings are embedded as `List Char` (`Str`), Python floats as `ℚ`
(the scoring arithmetic is plain `+`/`*`/`/` on small constants), and all
network-dependent inputs (fetched pages, parse results of external HTML)
are passed in explicitly as environment parameters.
-/

/-- Python strings are modelled as lists of characters. -/
abbrev Str := List Char

/-- `s.lower()`: character-wise lowercasing, as Python does for ASCII data. -/
def toLowerStr (s : Str) : Str := s.map Char.toLower

/-- `hay.startswith(needle)` on character lists. -/
def startsWith : Str → Str → Bool
  | _, [] => true
  | [], _ :: _ => false
  | c :: cs, n :: ns => c == n && startsWith cs ns

/-- Python's substring test `needle in hay` on character lists. -/
def substr : Str → Str → Bool
  | [], needle => needle.isEmpty
  | c :: rest, needle => startsWith (c :: rest) needle || substr rest needle

/-- Whitespace test used by Python's `str.split()` (ASCII subset). -/
def isWsC (c : Char) : Bool := c == ' ' || c == '\t' || c == '\n' || c == '\r'

/-- Worker for `splitWs`; `cur` holds the current token reversed. -/
def splitWsGo : Str → Str → List Str
  | [], cur => if cur.isEmpty then [] else [cur.reverse]
  | c :: rest, cur =>
    if isWsC c then
      (if cur.isEmpty then splitWsGo rest [] else cur.reverse :: splitWsGo rest [])
    else splitWsGo rest (c :: cur)

/-- Python's `s.split()` (no argument): split on whitespace runs, dropping
empty tokens. -/
def splitWs (s : Str) : List Str := splitWsGo s []

/-- Python's `s.split(sep)[...]` for a single-character separator `sep`;
`"".split(sep) = [""]` and trailing separators yield a trailing `""`. -/
def splitOnChar (sep : Char) : Str → List Str
  | [] => [[]]
  | x :: xs =>
    if x = sep then [] :: splitOnChar sep xs
    else
      match splitOnChar sep xs with
      | [] => [[x]]
      | h :: t => (x :: h) :: t

/-- Worker for `replaceSub`; every step consumes at least one character
and exactly one unit of fuel, so fuel `s.length` always suffices and the
`0, s` equation is never reached with a non-empty `s`. -/
def replaceSubFuel (pat rep : Str) : Nat → Str → Str
  | 0, s => s
  | _ + 1, [] => []
  | fuel + 1, c :: rest =>
    if pat ≠ [] ∧ startsWith (c :: rest) pat then
      rep ++ replaceSubFuel pat rep fuel (List.drop (pat.length - 1) rest)
    else c :: replaceSubFuel pat rep fuel rest

/-- Python's `s.replace(pat, rep)` (left-to-right, non-overlapping). -/
def replaceSub (pat rep s : Str) : Str := replaceSubFuel pat rep s.length s

/-! ## Basic lemmas about the string operations -/

theorem startsWith_nil_needle (s : Str) : startsWith s [] = true := by
  cases s <;> rfl

theorem substr_nil_needle (s : Str) : substr s [] = true := by
  cases s <;> simp [substr, startsWith_nil_needle, List.isEmpty]

/-- A prefix match survives extending the haystack on the right. -/
theorem startsWith_extend {h n e : Str} (hs : startsWith h n = true) :
    startsWith (h ++ e) n = true := by
  induction n generalizing h with
  | nil => exact startsWith_nil_needle _
  | cons x ns ih =>
    cases h with
    | nil => simp [startsWith] at hs
    | cons c cs =>
      simp only [startsWith, Bool.and_eq_true] at hs
      simp only [List.cons_append, startsWith, Bool.and_eq_true]
      exact ⟨hs.1, ih hs.2⟩

/-- A substring match survives extending the haystack on the right. -/
theorem substr_extend {h n e : Str} (hs : substr h n = true) :
    substr (h ++ e) n = true := by
  induction h with
  | nil =>
    simp only [substr, List.isEmpty_iff] at hs
    subst hs
    exact substr_nil_needle _
  | cons c cs ih =>
    simp only [substr, Bool.or_eq_true] at hs
    rcases hs with hs | hs
    · simp only [List.cons_append, substr, Bool.or_eq_true]
      exact Or.inl (startsWith_extend hs)
    · simp only [List.cons_append, substr, Bool.or_eq_true]
      exact Or.inr (ih hs)

/-- A substring match survives extending the haystack on the left. -/
theorem substr_pre {h n p : Str} (hs : substr h n = true) :
    substr (p ++ h) n = true := by
  induction p with
  | nil => exact hs
  | cons c cs ih =>
    simp only [List.cons_append, substr, Bool.or_eq_true]
    exact Or.inr ih

/-- If `q` starts the string `A ++ c :: B` and `c` does not occur in `q`,
then `q` already starts `A`. -/
theorem startsWith_split {A B q : Str} {c : Char}
    (hs : startsWith (A ++ c :: B) q = true) (hc : c ∉ q) :
    startsWith A q = true := by
  induction q generalizing A with
  | nil => exact startsWith_nil_needle _
  | cons x qs ih =>
    cases A with
    | nil =>
      simp only [List.nil_append, startsWith, Bool.and_eq_true, beq_iff_eq] at hs
      exact absurd (hs.1 ▸ List.mem_cons_self x qs) hc
    | cons a as =>
      simp only [List.cons_append, startsWith, Bool.and_eq_true] at hs
      simp only [startsWith, Bool.and_eq_true]
      exact ⟨hs.1, ih hs.2 (fun hm => hc (List.mem_cons_of_mem _ hm))⟩

/-- A substring of `A ++ c :: B` avoiding `c` lies inside `A` or inside `B`. -/
theorem substr_split {A B q : Str} {c : Char}
    (hs : substr (A ++ c :: B) q = true) (hc : c ∉ q) :
    substr A q = true ∨ substr B q = true := by
  induction A with
  | nil =>
    simp only [List.nil_append, substr, Bool.or_eq_true] at hs
    rcases hs with hs | hs
    · cases q with
      | nil => exact Or.inl (substr_nil_needle _)
      | cons x qs =>
        simp only [startsWith, Bool.and_eq_true, beq_iff_eq] at hs
        exact absurd (hs.1 ▸ List.mem_cons_self x qs) hc
    · exact Or.inr hs
  | cons a as ih =>
    simp only [List.cons_append, substr, Bool.or_eq_true] at hs
    rcases hs with hs | hs
    · have : startsWith (a :: as) q = true := by
        have := startsWith_split (A := a :: as) (c := c) (B := B) ?_ hc
        · exact this
        · simpa using hs
      exact Or.inl (by simp [substr, this])
    · rcases ih hs with h | h
      · exact Or.inl (by simp [substr, h])
      · exact Or.inr h

/-- Tokens produced by `splitWsGo` contain no whitespace, provided the
accumulator contains none. -/
theorem splitWsGo_no_ws :
    ∀ (s cur q : Str), q ∈ splitWsGo s cur → (∀ c ∈ cur, isWsC c = false) →
      ∀ c ∈ q, isWsC c = false := by
  intro s
  induction s with
  | nil =>
    intro cur q hq hcur c hcq
    simp only [splitWsGo] at hq
    split at hq
    · simp at hq
    · simp only [List.mem_singleton] at hq
      subst hq
      exact hcur c (List.mem_reverse.mp hcq)
  | cons x xs ih =>
    intro cur q hq hcur c hcq
    simp only [splitWsGo] at hq
    by_cases hws : isWsC x = true
    · simp only [hws, if_true] at hq
      split at hq
      · exact ih [] q hq (by simp) c hcq
      · rcases List.mem_cons.mp hq with h | h
        · subst h
          exact hcur c (List.mem_reverse.mp hcq)
        · exact ih [] q h (by simp) c hcq
    · simp only [Bool.not_eq_true] at hws
      simp only [hws, Bool.false_eq_true, if_false] at hq
      refine ih (x :: cur) q hq ?_ c hcq
      intro d hd
      rcases List.mem_cons.mp hd with h | h
      · subst h; exact hws
      · exact hcur d h

/-- Tokens of `splitWs` never contain a space character. -/
theorem splitWs_no_space {s q : Str} (hq : q ∈ splitWs s) : ' ' ∉ q := by
  intro hsp
  have := splitWsGo_no_ws s [] q hq (by simp) ' ' hsp
  simp [isWsC] at this

/-- Counting with `filter` is monotone under pointwise implication of the
predicates on the list's members. -/
theorem filterLen_mono {α : Type} (l : List α) (p q : α → Bool)
    (h : ∀ x ∈ l, p x = true → q x = true) :
    (l.filter p).length ≤ (l.filter q).length := by
  induction l with
  | nil => simp
  | cons x xs ih =>
    have hx := h x (List.mem_cons_self x xs)
    have ihx := ih (fun y hy => h y (List.mem_cons_of_mem _ hy))
    by_cases hp : p x = true
    · have hqx := hx hp
      simp [List.filter, hp, hqx]
      omega
    · simp only [Bool.not_eq_true] at hp
      by_cases hqx : q x = true
      · simp [List.filter, hp, hqx]
        omega
      · simp only [Bool.not_eq_true] at hqx
        simp [List.filter, hp, hqx]
        omega

theorem toLowerStr_append (a b : Str) :
    toLowerStr (a ++ b) = toLowerStr a ++ toLowerStr b := by
  simp [toLowerStr]

theorem toLowerStr_cons (c : Char) (s : Str) :
    toLowerStr (c :: s) = Char.toLower c :: toLowerStr s := rfl

/-! ## Data model

`RawListing` as emitted by the extractor (`scraper.py`): dicts with keys
`title`, `company`, `location`, `description`, `source`, `url` (the
`scraped_at` wall-clock timestamp is not modelled). -/

structure Listing where
  title : Str
  company : Str
  location : Str
  description : Str
  source : Str
  url : Str
deriving DecidableEq

/-! ## Executable rational arithmetic

`Rat.add`, `Rat.mul` and `Rat.inv` are `@[irreducible]`, so terms built
from `+`/`*`/`/` do not evaluate inside `decide`. The scorer therefore
uses the following wrappers, built from `mkRat` (which does evaluate);
the bridge lemmas identify them with the ordinary field operations, so
order-theoretic reasoning can be done over `+`/`*`/`/` as usual. -/

/-- Addition on `ℚ` through `mkRat`; equal to `+` by `qAdd_eq`. -/
def qAdd (a b : ℚ) : ℚ := mkRat (a.num * b.den + b.num * a.den) (a.den * b.den)

/-- Multiplication on `ℚ` through `mkRat`; equal to `*` by `qMul_eq`. -/
def qMul (a b : ℚ) : ℚ := mkRat (a.num * b.num) (a.den * b.den)

/-- Division of a rational by a natural number through `mkRat`; equal to
`a / n` by `qDivNat_eq` (both sides are `0` for `n = 0`). -/
def qDivNat (a : ℚ) (n : Nat) : ℚ := mkRat a.num (a.den * n)

theorem qAdd_eq (a b : ℚ) : qAdd a b = a + b := (Rat.add_def' a b).symm

theorem qMul_eq (a b : ℚ) : qMul a b = a * b := by
  rw [qMul, Rat.mul_def, Rat.normalize_eq_mkRat]

theorem qDivNat_eq (a : ℚ) (n : Nat) : qDivNat a n = a / (n : ℚ) := by
  rcases Nat.eq_zero_or_pos n with hn | hn
  · subst hn
    simp [qDivNat]
  · have hden : ((a.den * n : Nat) : ℚ) ≠ 0 := by
      have : a.den * n ≠ 0 := Nat.mul_ne_zero a.den_nz (Nat.pos_iff_ne_zero.mp hn)
      exact_mod_cast this
    have hnq : (n : ℚ) ≠ 0 := by
      exact_mod_cast Nat.pos_iff_ne_zero.mp hn
    have hd : ((a.den : Nat) : ℚ) ≠ 0 := by
      exact_mod_cast a.den_nz
    rw [qDivNat, Rat.mkRat_eq_div]
    push_cast
    rw [div_mul_eq_div_div]
    congr 1
    exact_mod_cast Rat.num_div_den a

/-! ## Relevance scorer (`InternshipScraper._calculate_relevance_score`)

`scraper.py` lines 716–829 translated to `ℚ`. The score is accumulated
additively before the location block, which then either adds a bonus or
applies a multiplicative penalty; we split the function into
`preLocScore` (everything before the location block) and `locationAdjust`
(the location block), composed in `calcRelevanceScore`. -/

/-- `stop_words` of `_calculate_relevance_score`. -/
def stopWords : List Str :=
  [ "intern", "internship", "the", "a", "an", "and", "or", "in", "at",
    "for", "of", "to" ].map String.toList

/-- `query_terms`: words of the lowercased query that are not stop words
and have more than 2 characters. -/
def queryTerms (ql : Str) : List Str :=
  (splitWs ql).filter (fun t => !stopWords.contains t && decide (2 < t.length))

/-- `is_internship`: internship-indicating terms in title or description. -/
def isInternshipB (tl dl : Str) : Bool :=
  substr tl ( "intern".toList) || substr tl ( "internship".toList) ||
  substr dl ( "intern".toList) || substr dl ( "internship".toList) ||
  substr tl ( "camp".toList) || substr tl ( "trainee".toList)

/-- `is_software_query`. -/
def softwareQueryKw : List Str :=
  [ "software", "developer", "engineer", "programming" ].map String.toList

def isSoftwareQueryB (ql : Str) : Bool := softwareQueryKw.any (fun k => substr ql k)

/-- Engineering/developer title keywords (the `+0.2` bonus). -/
def engRoleKw : List Str :=
  [ "engineer", "developer", "programmer", "coder" ].map String.toList

/-- Adjacent technical role keywords (the `+0.15` bonus). -/
def techRoleKw : List Str :=
  [ "test", "qa", "quality", "automation", "ai", "machine learning",
    "data" ].map String.toList

/-- All scoring contributions of `_calculate_relevance_score` before its
location block: internship base bonus, title-term coverage, role-category
bonuses, and combined title+description term coverage. -/
def preLocScore (title desc query : Str) : ℚ :=
  let tl := toLowerStr title
  let dl := toLowerStr desc
  let ql := toLowerStr query
  let qt := queryTerms ql
  qAdd (qAdd (qAdd (qAdd
    (if isInternshipB tl dl then mkRat 3 20 else 0)
    (if qt.length = 0 then 0 else
      qMul (qDivNat ((qt.filter (fun t => substr tl t)).length : ℚ) qt.length) (mkRat 1 2)))
    (if isSoftwareQueryB ql && engRoleKw.any (fun k => substr tl k) then mkRat 1 5 else 0))
    (if isSoftwareQueryB ql && techRoleKw.any (fun k => substr tl k) then mkRat 3 20 else 0))
    (if qt.length = 0 then 0 else
      qMul (qDivNat ((qt.filter (fun t => substr (tl ++ ' ' :: dl) t)).length : ℚ) qt.length)
        (mkRat 1 5))

/-- `location_variations` lookup table of the location block. -/
def locationVariationsTable : List (Str × List Str) :=
  [ ("remote", ["remote", "work from home", "wfh", "anywhere",
      "work from anywhere", "work remotely"]),
    ("bangalore", ["bangalore", "bengaluru", "bangaluru", "banglore",
      "bangalore, india", "bengaluru, india", "banglore, india"]),
    ("mumbai", ["mumbai", "bombay", "mumbai, india", "bombay, india"]),
    ("delhi", ["delhi", "ncr", "new delhi", "gurgaon", "gurugram", "noida",
      "delhi, india", "new delhi, india"]),
    ("hyderabad", ["hyderabad", "hyderabad, india"]),
    ("chennai", ["chennai", "madras", "chennai, india", "madras, india"]),
    ("pune", ["pune", "pune, india"]),
    ("coimbatore", ["coimbatore", "coimbatore, india"]),
    ("india", ["india", "indian"]) ].map
    (fun p => (p.1.toList, p.2.map String.toList))

/-- `us_indicators` of the mismatch branch. -/
def usIndicators : List Str :=
  [ "ca", "co", "ny", "tx", "il", "pa", "ut", "md", "al", "wa", "or", "az",
    "fl", "ma", "nc", "united states", "usa", "us",
    "united states of america" ].map String.toList

/-- `indian_cities` of the mismatch branch. -/
def indianCitiesScore : List Str :=
  [ "bangalore", "banglore", "mumbai", "delhi", "hyderabad", "chennai",
    "pune", "coimbatore" ].map String.toList

/-- `loc_normalized = loc_lower.replace('bangalore','bangalore').replace('banglore','bangalore')`. -/
def locNormalized (ll : Str) : Str :=
  replaceSub ( "banglore".toList) ( "bangalore".toList)
    (replaceSub ( "bangalore".toList) ( "bangalore".toList) ll)

/-- Which branch of the location block applies, as a function of the two
location strings only (the numeric branch bodies never influence branch
selection other than the inner `score > 0.3` test, kept in
`locationAdjust`):
0 = no location requested, 1 = canonical match, 2 = US-vs-India mismatch,
3 = Indian-city search with other mismatch, 4 = plain mismatch. -/
def locCase (jobLoc loc : Str) : Nat :=
  let ll := toLowerStr loc
  if ll = [] then 0
  else
    let jl := toLowerStr jobLoc
    let jlClean := jl.filter (fun c => !(c == ',') && !(c == '.'))
    if locationVariationsTable.any
        (fun p => substr ll p.1 && p.2.any (fun v => substr jlClean v)) then 1
    else if indianCitiesScore.any (fun ci => substr (locNormalized ll) ci) then
      (if usIndicators.any (fun u => substr jlClean u) then 2 else 3)
    else 4

/-- The location block of `_calculate_relevance_score` (lines 775–827). -/
def locationAdjust (score0 : ℚ) (jobLoc loc : Str) : ℚ :=
  match locCase jobLoc loc with
  | 0 => qAdd score0 (mkRat 1 10)
  | 1 => qAdd score0 (mkRat 2 5)
  | 2 => if score0 > mkRat 3 10 then qMul score0 (mkRat 3 20) else qMul score0 (mkRat 1 20)
  | 3 => qMul score0 (mkRat 2 5)
  | _ => qMul score0 (mkRat 1 2)

/-- `_calculate_relevance_score(title, description, job_location, query, location)`. -/
def calcRelevanceScore (title desc jobLoc query loc : Str) : ℚ :=
  locationAdjust (preLocScore title desc query) jobLoc loc

/-! ## Adaptive filter threshold (`scrape_indeed`, lines 459–469) -/

/-- `max(s for s, _ in scored_internships)` (0 on `[]`, where the code never
evaluates it). -/
def maxScore : List (ℚ × Listing) → ℚ
  | [] => 0
  | x :: xs => xs.foldl (fun m p => max m p.1) x.1

/-- The adaptive `min_score` threshold of `scrape_indeed`. -/
def minScoreThreshold (scored : List (ℚ × Listing)) (loc : Str) : ℚ :=
  if scored ≠ [] then
    if scored.length ≤ 5 then mkRat 3 20
    else if maxScore scored > mkRat 2 5 then mkRat 1 5
    else mkRat 1 4
  else if loc ≠ [] then mkRat 1 5 else mkRat 3 20

/-! ## Stable descending sort (`sorted(..., key=lambda x: x[0], reverse=True)`) -/

/-- Insert into a descending-sorted list, after all entries with a score
`≥` the new one (stability of Python's sort). -/
def insertDesc (x : ℚ × Listing) : List (ℚ × Listing) → List (ℚ × Listing)
  | [] => [x]
  | y :: ys => if y.1 ≤ x.1 then x :: y :: ys else y :: insertDesc x ys

/-- Stable sort by descending score. -/
def sortDesc (l : List (ℚ × Listing)) : List (ℚ × Listing) :=
  l.foldr insertDesc []

theorem insertDesc_length (x : ℚ × Listing) (l : List (ℚ × Listing)) :
    (insertDesc x l).length = l.length + 1 := by
  induction l with
  | nil => rfl
  | cons y ys ih =>
    simp only [insertDesc]
    split
    · simp
    · simp [ih]

theorem sortDesc_length (l : List (ℚ × Listing)) :
    (sortDesc l).length = l.length := by
  induction l with
  | nil => rfl
  | cons x xs ih =>
    simp only [sortDesc, List.foldr_cons, insertDesc_length, List.length_cons]
    simpa [sortDesc] using ih

/-! ## Cross-source deduplication

All three dedup passes in the repository (`scrape_all_sources` in
`scraper.py`, `call_tool` in `server.py`, and both endpoints in `main.py`)
use the same loop: a `seen` set of `(title.lower(), company.lower())`
keys, keeping the first occurrence. -/

/-- The dedup key `(internship['title'].lower(), internship['company'].lower())`. -/
def listingKey (x : Listing) : Str × Str :=
  (toLowerStr x.title, toLowerStr x.company)

/-- The dedup loop with its `seen` set (membership in a list models the
Python set). -/
def dedupGo : List Listing → List (Str × Str) → List Listing
  | [], _ => []
  | x :: xs, seen =>
    if listingKey x ∈ seen then dedupGo xs seen
    else x :: dedupGo xs (listingKey x :: seen)

/-- The cross-source dedup pass (`scraper.py` lines 1238–1247). -/
def dedupListings (l : List Listing) : List Listing := dedupGo l []

theorem dedupGo_length_le : ∀ (l : List Listing) (seen : List (Str × Str)),
    (dedupGo l seen).length ≤ l.length := by
  intro l
  induction l with
  | nil => intro seen; simp [dedupGo]
  | cons x xs ih =>
    intro seen
    simp only [dedupGo]
    split
    · exact Nat.le_trans (ih seen) (Nat.le_succ _)
    · simpa using ih (listingKey x :: seen)

/-- Running the dedup loop on its own output (with the same `seen` set)
changes nothing. -/
theorem dedupGo_idem : ∀ (l : List Listing) (seen : List (Str × Str)),
    dedupGo (dedupGo l seen) seen = dedupGo l seen := by
  intro l
  induction l with
  | nil => intro seen; rfl
  | cons x xs ih =>
    intro seen
    simp only [dedupGo]
    by_cases hx : listingKey x ∈ seen
    · simp only [hx, if_true]
      exact ih seen
    · rw [if_neg hx]
      simp only [dedupGo]
      rw [if_neg hx]
      congr 1
      exact ih (listingKey x :: seen)

/-- The dedup loop keeps, for every key, exactly the first entry of the
input carrying that key (none if the key is already `seen`). -/
theorem dedupGo_filter_key (k : Str × Str) :
    ∀ (l : List Listing) (seen : List (Str × Str)),
      (dedupGo l seen).filter (fun x => decide (listingKey x = k)) =
        if k ∈ seen then [] else
          (l.filter (fun x => decide (listingKey x = k))).take 1 := by
  intro l
  induction l with
  | nil =>
    intro seen
    simp only [dedupGo, List.filter_nil]
    split <;> simp
  | cons x xs ih =>
    intro seen
    simp only [dedupGo]
    by_cases hx : listingKey x ∈ seen
    · simp only [hx, if_true, ih]
      by_cases hk : k ∈ seen
      · simp [hk]
      · have hxk : ¬ (listingKey x = k) := fun h => hk (h ▸ hx)
        simp [hk, List.filter_cons, hxk]
    · simp only [hx, if_false]
      by_cases hxk : listingKey x = k
      · subst hxk
        rw [if_neg hx]
        simp only [List.filter_cons, decide_True, if_true]
        rw [ih (listingKey x :: seen)]
        simp [List.mem_cons]
      · simp only [List.filter_cons, hxk, decide_False, Bool.false_eq_true,
          if_false]
        rw [ih (listingKey x :: seen)]
        by_cases hk : k ∈ seen
        · simp [hk, List.mem_cons]
        · have hkx : ¬ (k = listingKey x) := fun h => hxk h.symm
          simp [hk, List.mem_cons, hkx]

/-! ## The `/api/internships/scrape` endpoint (`main.py`, lines 586–758)

The endpoint's network- and LLM-dependent steps are abstracted: the
AI query optimizer is external (§6 of the spec), and each per-source
scraper call is an environment function `fetch : Str → Except Str (List
Listing)`. All `scrape_*` methods of `InternshipScraper` wrap their
bodies in `try/except` blocks and return `[]` on any internal failure, so
an `Except.error` models such a swallowed failure and contributes `[]`
(`runSource`). -/

structure ScrapeRequest where
  query : Str
  location : Str
  max_results : Nat
  sources : List Str
deriving DecidableEq

/-- A formatted listing as assembled for the frontend (`main.py` lines
702–716); the dict's constant fields are kept verbatim. -/
structure Formatted where
  title : Str
  company : Str
  description : Str
  location : Str
  typeLabel : Str
  duration : Str
  requiredSkills : List Str
  benefits : List Str
  applicationTips : Str
  matchScore : Nat
  url : Str
  source : Str
deriving DecidableEq

/-- `main.py` lines 705–716: the `formatted` dict built for each unique
listing. -/
def formatListing (reqQuery : Str) (l : Listing) : Formatted :=
  { title := l.title
    company := l.company
    description := l.description
    location := l.location
    typeLabel := "Internship".toList
    duration := "3-6 months".toList
    requiredSkills := if reqQuery ≠ [] then [reqQuery] else []
    benefits := [ "Mentorship".toList, "Networking".toList,
      "Real-world experience".toList]
    applicationTips := "Apply via ".toList ++ l.source ++ " or company website".toList
    matchScore := if l.source ≠ "Sample".toList then 80 else 70
    url := l.url
    source := l.source }

/-- The endpoint's dedup-and-format loop (`main.py` lines 694–717): the
`seen` set is keyed on the raw listing's lowercased title/company and the
formatted dict is appended for first occurrences. -/
def dedupFormatGo (reqQuery : Str) : List Listing → List (Str × Str) → List Formatted
  | [], _ => []
  | x :: xs, seen =>
    if listingKey x ∈ seen then dedupFormatGo reqQuery xs seen
    else formatListing reqQuery x :: dedupFormatGo reqQuery xs (listingKey x :: seen)

/-- Source identifiers used by the endpoint. -/
def srcIndeed : Str := "indeed".toList
def srcLinkedin : Str := "linkedin".toList
def srcGlassdoor : Str := "glassdoor".toList
def srcInternshipsCom : Str := "internships.com".toList
def srcSkillIndia : Str := "skill_india".toList
def srcSkillIndiaDigital : Str := "skillindiadigital".toList

/-- `main.py` lines 625–633: default sources when none are requested, and
forced inclusion of `skill_india` otherwise. -/
def resolveSources (ss : List Str) : List Str :=
  if ss = [] then
    [srcIndeed, srcLinkedin, srcGlassdoor, srcInternshipsCom, srcSkillIndia]
  else if srcSkillIndia ∉ ss ∧ srcSkillIndiaDigital ∉ ss then
    ss ++ [srcSkillIndia]
  else ss

/-- `max_per_source = max(10, request.max_results // max(len(sources), 1))
if sources else request.max_results` (`main.py` line 636). -/
def maxPerSource (req : ScrapeRequest) (sources : List Str) : Nat :=
  if sources ≠ [] then max 10 (req.max_results / max sources.length 1)
  else req.max_results

/-- A per-source scraper call: internal failures are swallowed by the
`scrape_*` methods and surface as an empty list. -/
def runSource (fetch : Str → Except Str (List Listing)) (s : Str) : List Listing :=
  match fetch s with
  | .ok l => l
  | .error _ => []

/-- `main.py` lines 644–676: the endpoint's fixed per-source dispatch
order (`indeed`, `linkedin`, `glassdoor`, `internships.com`, then
`skill_india`), each gated on membership in the resolved source list. -/
def gatherAll (sources : List Str) (fetch : Str → Except Str (List Listing)) :
    List Listing :=
  (if srcIndeed ∈ sources then runSource fetch srcIndeed else []) ++
  (if srcLinkedin ∈ sources then runSource fetch srcLinkedin else []) ++
  (if srcGlassdoor ∈ sources then runSource fetch srcGlassdoor else []) ++
  (if srcInternshipsCom ∈ sources then runSource fetch srcInternshipsCom else []) ++
  (if srcSkillIndia ∈ sources ∨ srcSkillIndiaDigital ∈ sources then
    runSource fetch srcSkillIndia else [])

/-- The JSON body returned by the endpoint (`main.py` lines 721–734); the
`query_optimization` provenance block concerns only the external AI step
and is not modelled. -/
structure ScrapeResponse where
  success : Bool
  total_results : Nat
  opportunities : List Formatted
  scraped_sources : List Str
  has_fallback : Bool
deriving DecidableEq

/-- The synchronous harvest endpoint `scrape_internships` (`main.py`),
with per-source scraper outcomes supplied by `fetch`. -/
def scrape_internships (req : ScrapeRequest)
    (fetch : Str → Except Str (List Listing)) : ScrapeResponse :=
  let sources := resolveSources req.sources
  let all := gatherAll sources fetch
  let unique := dedupFormatGo req.query all []
  { success := true
    total_results := unique.length
    opportunities := unique
    scraped_sources := sources
    has_fallback := unique.any (fun i => i.source == "Sample".toList) }

/-- The streaming endpoint's per-source dispatch (`main.py` lines
849–864): it iterates the resolved source list itself and dispatches on
each identifier, unknown identifiers yielding `[]`; both skill-india
spellings reach the same scraper. -/
def streamFetchOne (fetch : Str → Except Str (List Listing)) (s : Str) :
    List Listing :=
  if s = srcIndeed then runSource fetch srcIndeed
  else if s = srcLinkedin then runSource fetch srcLinkedin
  else if s = srcGlassdoor then runSource fetch srcGlassdoor
  else if s = srcInternshipsCom then runSource fetch srcInternshipsCom
  else if s = srcSkillIndia ∨ s = srcSkillIndiaDigital then
    runSource fetch srcSkillIndia
  else []

/-- The streaming endpoint's final `complete` event payload
(`total`, `opportunities`), after the same dedup-and-format loop. -/
def scrape_internships_stream_final (req : ScrapeRequest)
    (fetch : Str → Except Str (List Listing)) : Nat × List Formatted :=
  let sources := resolveSources req.sources
  let all := (sources.map (streamFetchOne fetch)).flatten
  let unique := dedupFormatGo req.query all []
  (unique.length, unique)

/-! ## `scrape_all_sources` (`scraper.py`, lines 1217–1247)

The scraper-side aggregator: a fixed source list, per-source `try/except`
that logs `Error scraping {source_name}: {e}` and continues with no
contribution, then the cross-source dedup pass. Logs are modelled as the
list of printed lines relevant to diagnostics. -/

def scraperSourceNames : List Str :=
  [ "Indeed", "LinkedIn", "Glassdoor", "Internships.com",
    "Skill India Digital" ].map String.toList

/-- The per-source log line of the `except` branch. -/
def errLog (name reason : Str) : Str :=
  "Error scraping ".toList ++ name ++ ": ".toList ++ reason

/-- The per-source log line of the success branch (`Scraped {n}
internships from {name}`). -/
def okLog (name : Str) (n : Nat) : Str :=
  "Scraped ".toList ++ Nat.toDigits 10 n ++ " internships from ".toList ++ name

/-- One iteration of the source loop: listings contributed and log lines. -/
def sourceStep (fetch : Str → Except Str (List Listing)) (name : Str) :
    List Listing × List Str :=
  match fetch name with
  | .ok l => (l, [okLog name l.length])
  | .error e => ([], [errLog name e])

def scrapeAllGo (fetch : Str → Except Str (List Listing)) :
    List Str → List Listing × List Str
  | [] => ([], [])
  | n :: rest =>
    let p := sourceStep fetch n
    let r := scrapeAllGo fetch rest
    (p.1 ++ r.1, p.2 ++ r.2)

/-- `scrape_all_sources`: loop over the fixed sources, then dedup. -/
def scrape_all_sources (fetch : Str → Except Str (List Listing)) :
    List Listing × List Str :=
  let g := scrapeAllGo fetch scraperSourceNames
  (dedupListings g.1, g.2)

/-! ## Title escalation (`_parse_indeed_html`, lines 610–637)

Per-candidate title extraction: the first-found title candidate may be
replaced by nested link text, nested span text, or the first line (or
first sentence) of the card's flattened text. `nestedLink`/`nestedSpan`
are `some t` when `title_elem.find(...)` finds such an element with
stripped text `t`, `none` otherwise; `allText` is
`card.get_text(separator=' ', strip=True)`. -/

/-- The generic-placeholder list actually used at line 615. -/
def genericTitles : List Str := [ "intern", "internship", "job" ].map String.toList

/-- The escalation trigger at line 615:
`not title or len(title) < 5 or title.lower() in ['intern','internship','job']`. -/
def escalationTrigger (title : Str) : Prop :=
  title = [] ∨ title.length < 5 ∨ toLowerStr title ∈ genericTitles

instance (title : Str) : Decidable (escalationTrigger title) := by
  unfold escalationTrigger; infer_instance

/-- Lines 616–621: replace by nested link text when present, non-empty and
strictly longer. -/
def nestedLinkStep (nested : Option Str) (t : Str) : Str :=
  match nested with
  | some nt => if nt ≠ [] ∧ t.length < nt.length then nt else t
  | none => t

/-- Lines 623–628: replace by nested span text when present, non-empty and
strictly longer. -/
def nestedSpanStep (nested : Option Str) (t : Str) : Str :=
  match nested with
  | some nt => if nt ≠ [] ∧ t.length < nt.length then nt else t
  | none => t

/-- Lines 630–637: if the title is still empty or shorter than 5
characters, fall back to the first line (split on a newline if one is
present, else the first sentence split on a period) of the flattened card
text, truncated to 100 characters, when non-empty and strictly longer. -/
def flattenedTextStep (allText : Str) (t : Str) : Str :=
  if t = [] ∨ t.length < 5 then
    let firstLine :=
      if '\n' ∈ allText then (splitOnChar '\n' allText).headD []
      else (splitOnChar '.' allText).headD []
    if firstLine ≠ [] ∧ t.length < firstLine.length then firstLine.take 100 else t
  else t

/-- The complete title-extraction logic of lines 612–637, as a single
function translated from the nested conditionals of the source. -/
def escalateTitle (title : Str) (nestedLink nestedSpan : Option Str)
    (allText : Str) : Str :=
  if title = [] ∨ title.length < 5 ∨ toLowerStr title ∈ genericTitles then
    let t1 :=
      match nestedLink with
      | some nt => if nt ≠ [] ∧ title.length < nt.length then nt else title
      | none => title
    let t2 :=
      match nestedSpan with
      | some nt => if nt ≠ [] ∧ t1.length < nt.length then nt else t1
      | none => t1
    if t2 = [] ∨ t2.length < 5 then
      let firstLine :=
        if '\n' ∈ allText then (splitOnChar '\n' allText).headD []
        else (splitOnChar '.' allText).headD []
      if firstLine ≠ [] ∧ t2.length < firstLine.length then firstLine.take 100 else t2
    else t2
  else title

/-! ## The fetch strategy chain of `scrape_indeed` (lines 410–542)

External effects are captured in an environment:

* `staticFetch` — outcome of the `session.get` block: an exception
  (`error`) or a response with its HTTP status, whether the
  captcha/"unusual" block marker was detected, whether the page showed a
  "no jobs found" message, and the candidate listings
  `_parse_indeed_html` extracts from its HTML (called with
  `max_results * 2`, so at most `2 * max_results` many — hypothesis
  `staticParsedLen env ≤ 2 * maxResults` in the theorems).
* `seleniumAvailable`/`seleniumResult` — whether Selenium is installed,
  and `some parsed` when `_scrape_with_selenium` returned page source that
  `_parse_indeed_html` turned into `parsed`, `none` when no page source
  was retrievable (or the block raised).
* `rssResult` — the result of `scrape_indeed_rss`, which swallows its own
  failures and returns `[]` for them. -/

structure StaticResp where
  status : Nat
  blocked : Bool
  noJobs : Bool
  parsed : List Listing
deriving DecidableEq

structure IndeedEnv where
  staticFetch : Except Str StaticResp
  seleniumAvailable : Bool
  seleniumResult : Option (List Listing)
  rssResult : List Listing

/-- Number of listings the static-path HTML parse produced. -/
def staticParsedLen (env : IndeedEnv) : Nat :=
  match env.staticFetch with
  | .ok r => r.parsed.length
  | .error _ => 0

/-- The three acquisition strategies of the chain. -/
inductive Strategy where
  | staticS
  | renderedS
  | feedS
deriving DecidableEq

/-- Did the static strategy yield at least one parseable extraction
result? (HTTP 200, no block marker, no "no jobs found" page, non-empty
parse.) -/
def staticYields (env : IndeedEnv) : Bool :=
  match env.staticFetch with
  | .ok r => r.status == 200 && !r.blocked && !r.noJobs && !r.parsed.isEmpty
  | .error _ => false

/-- Did the rendered (Selenium) strategy yield at least one parseable
extraction result? -/
def renderedYields (env : IndeedEnv) : Bool :=
  env.seleniumAvailable &&
    (match env.seleniumResult with
     | some l => !l.isEmpty
     | none => false)

/-- Scoring, adaptive filtering, sorting and truncation applied to the
static path's parse results (`scrape_indeed` lines 446–493). -/
def staticFilterRank (parsed : List Listing) (query loc : Str)
    (maxResults : Nat) : List Listing :=
  let scored := parsed.map (fun j =>
    (calcRelevanceScore j.title j.description j.location query loc, j))
  let ms := minScoreThreshold scored (toLowerStr loc)
  let filtered := scored.filter (fun p => ms ≤ p.1)
  let filtered' := if filtered = [] then (sortDesc scored).take maxResults
    else filtered
  ((sortDesc filtered').take maxResults).map Prod.snd

/-- `scrape_indeed`: result listings together with the strategies that
were actually attempted, in attempt order. Strategy 2 runs only when
Selenium is available (line 505); the RSS feed is the final fallback, and
when it also yields nothing the function returns the leftover empty
`internships` list. -/
def scrape_indeed_run (env : IndeedEnv) (query loc : Str) (maxResults : Nat) :
    List Listing × List Strategy :=
  let rssPart : List Listing × List Strategy :=
    (if env.rssResult ≠ [] then env.rssResult else [], [Strategy.feedS])
  let selPart : List Listing × List Strategy :=
    if env.seleniumAvailable then
      match env.seleniumResult with
      | some l =>
        if l ≠ [] then (l, [Strategy.renderedS])
        else (rssPart.1, Strategy.renderedS :: rssPart.2)
      | none => (rssPart.1, Strategy.renderedS :: rssPart.2)
    else rssPart
  match env.staticFetch with
  | .error _ => (selPart.1, Strategy.staticS :: selPart.2)
  | .ok r =>
    if r.status = 200 ∧ r.blocked = false ∧ r.noJobs = false ∧ r.parsed ≠ [] then
      let final := staticFilterRank r.parsed query loc maxResults
      if final ≠ [] then (final, [Strategy.staticS])
      else (selPart.1, Strategy.staticS :: selPart.2)
    else (selPart.1, Strategy.staticS :: selPart.2)

/-! ## Monotonicity of the scorer -/

/-- `mkRat` constants as division literals, for order reasoning. -/
theorem mkRat_div (n : Int) (d : Nat) : mkRat n d = (n : ℚ) / (d : ℚ) :=
  Rat.mkRat_eq_div n d

/-- The location block is monotone in the incoming score: every branch
either adds a constant or multiplies by a non-negative constant, and the
branch split at `score > 0.3` inside the heavy-penalty case jumps from
factor `0.05` to the larger factor `0.15`. -/
theorem locationAdjust_mono {b1 b2 : ℚ} (jobLoc loc : Str) (h : b1 ≤ b2) :
    locationAdjust b1 jobLoc loc ≤ locationAdjust b2 jobLoc loc := by
  unfold locationAdjust
  generalize locCase jobLoc loc = c
  rcases c with _ | _ | _ | _ | c
  · show qAdd b1 (mkRat 1 10) ≤ qAdd b2 (mkRat 1 10)
    simp only [qAdd_eq]
    linarith
  · show qAdd b1 (mkRat 2 5) ≤ qAdd b2 (mkRat 2 5)
    simp only [qAdd_eq]
    linarith
  · show (if b1 > mkRat 3 10 then qMul b1 (mkRat 3 20) else qMul b1 (mkRat 1 20)) ≤
      (if b2 > mkRat 3 10 then qMul b2 (mkRat 3 20) else qMul b2 (mkRat 1 20))
    simp only [qMul_eq, mkRat_div]
    split_ifs with h1 h2 h2 <;> push_cast <;> linarith
  · show qMul b1 (mkRat 2 5) ≤ qMul b2 (mkRat 2 5)
    simp only [qMul_eq, mkRat_div]
    push_cast
    linarith
  · show qMul b1 (mkRat 1 2) ≤ qMul b2 (mkRat 1 2)
    simp only [qMul_eq, mkRat_div]
    push_cast
    linarith

/-- Boolean indicator payoffs are monotone under implication. -/
theorem indicator_le {b1 b2 : Bool} (c : ℚ) (himp : b1 = true → b2 = true)
    (hc : 0 ≤ c) :
    (if b1 then c else (0 : ℚ)) ≤ (if b2 then c else 0) := by
  cases b1
  · cases b2 <;> simp [hc]
  · simp [himp rfl]

theorem isInternshipB_extend {tl dl : Str} (X : Str)
    (h : isInternshipB tl dl = true) : isInternshipB (tl ++ X) dl = true := by
  simp only [isInternshipB, Bool.or_eq_true] at h ⊢
  rcases h with ((((h | h) | h) | h) | h) | h
  · exact Or.inl (Or.inl (Or.inl (Or.inl (Or.inl (substr_extend h)))))
  · exact Or.inl (Or.inl (Or.inl (Or.inl (Or.inr (substr_extend h)))))
  · exact Or.inl (Or.inl (Or.inl (Or.inr h)))
  · exact Or.inl (Or.inl (Or.inr h))
  · exact Or.inl (Or.inr (substr_extend h))
  · exact Or.inr (substr_extend h)

theorem anyKw_extend {tl : Str} (X : Str) (kw : List Str)
    (h : kw.any (fun k => substr tl k) = true) :
    kw.any (fun k => substr (tl ++ X) k) = true := by
  rcases List.any_eq_true.mp h with ⟨k, hk, hsub⟩
  exact List.any_eq_true.mpr ⟨k, hk, substr_extend hsub⟩

/-- Query terms contain no space (they come from `query.split()`). -/
theorem queryTerms_no_space {ql t : Str} (ht : t ∈ queryTerms ql) : ' ' ∉ t :=
  splitWs_no_space (List.mem_filter.mp ht).1

/-- Extending the title (by a space and arbitrary text) cannot decrease
any scoring contribution made before the location block. -/
theorem preLocScore_extend (title desc query ext : Str) :
    preLocScore title desc query ≤ preLocScore (title ++ ' ' :: ext) desc query := by
  have hlow : toLowerStr (title ++ ' ' :: ext) =
      toLowerStr title ++ ' ' :: toLowerStr ext := by
    simp [toLowerStr]
  unfold preLocScore
  rw [hlow]
  set tl := toLowerStr title with htl
  set dl := toLowerStr desc with hdl
  set ql := toLowerStr query with hql
  set E := toLowerStr ext with hE
  set qt := queryTerms ql with hqt
  simp only [qAdd_eq]
  have hcov1 : (qt.filter (fun t => substr tl t)).length ≤
      (qt.filter (fun t => substr (tl ++ ' ' :: E) t)).length := by
    refine filterLen_mono qt _ _ ?_
    intro x _ hx
    exact substr_extend hx
  have hcov2 : (qt.filter (fun t => substr (tl ++ ' ' :: dl) t)).length ≤
      (qt.filter (fun t => substr ((tl ++ ' ' :: E) ++ ' ' :: dl) t)).length := by
    refine filterLen_mono qt _ _ ?_
    intro x hxqt hx
    have hnospace : ' ' ∉ x := queryTerms_no_space hxqt
    rcases substr_split hx hnospace with hxin | hxin
    · exact substr_extend (substr_extend hxin)
    · have : ((tl ++ ' ' :: E) ++ [' ']) ++ dl = (tl ++ ' ' :: E) ++ ' ' :: dl := by
        simp
      rw [← this]
      exact substr_pre hxin
  gcongr ?_ + ?_ + ?_ + ?_ + ?_
  · exact indicator_le _ (isInternshipB_extend _) (by rw [mkRat_div]; norm_num)
  · by_cases hq : qt.length = 0
    · simp [hq]
    · simp only [hq, if_false, qMul_eq, qDivNat_eq, mkRat_div]
      have : (0 : ℚ) < (qt.length : ℚ) := by
        have := Nat.pos_of_ne_zero hq
        exact_mod_cast this
      gcongr
  · refine indicator_le _ (fun h => ?_) (by rw [mkRat_div]; norm_num)
    simp only [Bool.and_eq_true] at h ⊢
    exact ⟨h.1, anyKw_extend _ _ h.2⟩
  · refine indicator_le _ (fun h => ?_) (by rw [mkRat_div]; norm_num)
    simp only [Bool.and_eq_true] at h ⊢
    exact ⟨h.1, anyKw_extend _ _ h.2⟩
  · by_cases hq : qt.length = 0
    · simp [hq]
    · simp only [hq, if_false, qMul_eq, qDivNat_eq, mkRat_div]
      have : (0 : ℚ) < (qt.length : ℚ) := by
        have := Nat.pos_of_ne_zero hq
        exact_mod_cast this
      gcongr

/-! ## Evaluation lemmas for the location block at fixed locations -/

/-- Searching for `bangalore`, a job in `New York, NY` hits the
US-indicator mismatch branch (heavy multiplicative penalty). -/
theorem locAdj_newyork (b : ℚ) :
    locationAdjust b ( "New York, NY".toList) ( "bangalore".toList) =
      if b > mkRat 3 10 then qMul b (mkRat 3 20) else qMul b (mkRat 1 20) := by
  unfold locationAdjust
  rw [show locCase ( "New York, NY".toList) ( "bangalore".toList) = 2 from by decide]

/-- Searching for `bangalore`, a job in `Delhi, Delhi` hits the
same-country mismatch branch (`× 0.4`). -/
theorem locAdj_delhi (b : ℚ) :
    locationAdjust b ( "Delhi, Delhi".toList) ( "bangalore".toList) =
      qMul b (mkRat 2 5) := by
  unfold locationAdjust
  rw [show locCase ( "Delhi, Delhi".toList) ( "bangalore".toList) = 3 from by decide]

/-- Searching for `bangalore`, a job in `Bengaluru, Karnataka` is a
canonical match (`+ 0.4`). -/
theorem locAdj_bengaluru (b : ℚ) :
    locationAdjust b ( "Bengaluru, Karnataka".toList) ( "bangalore".toList) =
      qAdd b (mkRat 2 5) := by
  unfold locationAdjust
  rw [show locCase ( "Bengaluru, Karnataka".toList) ( "bangalore".toList) = 1 from by decide]

/-! ## Claim theorems -/

/-- **C3** (amended). For a requested location `bangalore` (a known Indian
city) and three candidates identical in title and description whose locations
are `New York, NY` (different country, matching a US indicator),
`Delhi, Delhi` (same country, non-matching city, no US indicator), and
`Bengaluru, Karnataka` (canonical match), the relevance scores are
strictly ordered — provided every score contribution made before the
location block is strictly positive. (With a zero pre-location score the
two penalised candidates tie at `0`, refuting the unrestricted claim; see
the counterexample.) -/
theorem claim_C3 (title desc query : Str)
    (hb : 0 < preLocScore title desc query) :
    calcRelevanceScore title desc ( "New York, NY".toList) query ( "bangalore".toList) <
      calcRelevanceScore title desc ( "Delhi, Delhi".toList) query ( "bangalore".toList) ∧
    calcRelevanceScore title desc ( "Delhi, Delhi".toList) query ( "bangalore".toList) <
      calcRelevanceScore title desc ( "Bengaluru, Karnataka".toList) query
        ( "bangalore".toList) := by
  unfold calcRelevanceScore
  rw [locAdj_newyork, locAdj_delhi, locAdj_bengaluru]
  set b := preLocScore title desc query with hbdef
  constructor
  · by_cases h1 : b > mkRat 3 10
    · rw [if_pos h1]
      simp only [qMul_eq, mkRat_div]
      push_cast
      linarith
    · rw [if_neg h1]
      simp only [qMul_eq, mkRat_div]
      push_cast
      linarith
  · simp only [qMul_eq, qAdd_eq, mkRat_div]
    push_cast
    linarith

/-- **C3**, counterexample to the claim as stated: for candidates whose
title/description earn a zero pre-location score (`"abc"`/empty
description under query `"qqq"`), the different-country candidate and the
same-country candidate receive the *same* relevance score `0`, so the
claimed strict ordering fails. -/
theorem claim_C3_counterexample :
    calcRelevanceScore ( "abc".toList) [] ( "New York, NY".toList) ( "qqq".toList)
        ( "bangalore".toList) =
      calcRelevanceScore ( "abc".toList) [] ( "Delhi, Delhi".toList) ( "qqq".toList)
        ( "bangalore".toList) ∧
    calcRelevanceScore ( "abc".toList) [] ( "New York, NY".toList) ( "qqq".toList)
        ( "bangalore".toList) = 0 := by
  constructor
  · decide
  · decide

/-- **C3**, witness: a concrete candidate with a positive pre-location
score, instantiating the amended theorem. -/
theorem claim_C3_witness :
    0 < preLocScore ( "Software Engineering Intern".toList) ( "Great internship".toList)
        ( "software engineer".toList) ∧
    (calcRelevanceScore ( "Software Engineering Intern".toList)
        ( "Great internship".toList) ( "New York, NY".toList)
        ( "software engineer".toList) ( "bangalore".toList) <
      calcRelevanceScore ( "Software Engineering Intern".toList)
        ( "Great internship".toList) ( "Delhi, Delhi".toList)
        ( "software engineer".toList) ( "bangalore".toList) ∧
    calcRelevanceScore ( "Software Engineering Intern".toList)
        ( "Great internship".toList) ( "Delhi, Delhi".toList)
        ( "software engineer".toList) ( "bangalore".toList) <
      calcRelevanceScore ( "Software Engineering Intern".toList)
        ( "Great internship".toList) ( "Bengaluru, Karnataka".toList)
        ( "software engineer".toList) ( "bangalore".toList)) :=
  ⟨by decide, claim_C3 _ _ _ (by decide)⟩

/-- **C4** (confirmed). Extending a candidate's title with an additional
query term it did not previously contain never yields a strictly smaller
relevance score, for any description, job location, query, and requested
location: every scoring contribution is monotone under extending the
title, and the location block is monotone in the incoming score. -/
theorem claim_C4 (title desc jobLoc query loc t : Str)
    (ht : t ∈ queryTerms (toLowerStr query))
    (hnot : substr (toLowerStr title) t = false) :
    calcRelevanceScore title desc jobLoc query loc ≤
      calcRelevanceScore (title ++ ' ' :: t) desc jobLoc query loc := by
  unfold calcRelevanceScore
  exact locationAdjust_mono jobLoc loc (preLocScore_extend title desc query t)

/-- **C4**, witness: appending the uncontained query term `software` to
the title `QA Intern` under query `software engineer`. -/
theorem claim_C4_witness :
    "software".toList ∈ queryTerms (toLowerStr ( "software engineer".toList)) ∧
    substr (toLowerStr ( "QA Intern".toList)) ( "software".toList) = false ∧
    calcRelevanceScore ( "QA Intern".toList) ( "testing role".toList)
        ( "Bengaluru, Karnataka".toList) ( "software engineer".toList)
        ( "bangalore".toList) ≤
      calcRelevanceScore ( "QA Intern".toList ++ ' ' :: "software".toList)
        ( "testing role".toList) ( "Bengaluru, Karnataka".toList)
        ( "software engineer".toList) ( "bangalore".toList) :=
  ⟨by decide, by decide,
    claim_C4 ( "QA Intern".toList) ( "testing role".toList)
      ( "Bengaluru, Karnataka".toList) ( "software engineer".toList)
      ( "bangalore".toList) ( "software".toList) (by decide) (by decide)⟩

/-- **C5** (confirmed). The cross-source dedup pass (keyed on lowercased
title and company, keeping the first occurrence) is idempotent. -/
theorem claim_C5 (l : List Listing) :
    dedupListings (dedupListings l) = dedupListings l :=
  dedupGo_idem l []

/-- A neutral listing used to populate concrete scored lists. -/
def blankListing : Listing :=
  { title := [], company := [], location := [], description := [],
    source := [], url := [] }

/-- **C2** (amended). The adaptive minimum-score floor of `scrape_indeed`:
with between 1 and 5 surviving scored candidates the floor is the lenient
`0.15`; with more than 5 the floor is `0.2` when the maximum observed
score exceeds `0.4` and `0.25` otherwise — i.e. the floor is *lower*
(more lenient, not stricter) when strong matches exist. (With zero
surviving candidates the floor is `0.2` when a location was requested and
`0.15` otherwise.) -/
theorem claim_C2 (scored strong weak : List (ℚ × Listing)) (loc : Str)
    (h1 : scored ≠ []) (h2 : scored.length ≤ 5)
    (h3 : 5 < strong.length) (h4 : mkRat 2 5 < maxScore strong)
    (h5 : 5 < weak.length) (h6 : maxScore weak ≤ mkRat 2 5) :
    minScoreThreshold scored loc = mkRat 3 20 ∧
    minScoreThreshold strong loc = mkRat 1 5 ∧
    minScoreThreshold weak loc = mkRat 1 4 ∧
    minScoreThreshold strong loc < minScoreThreshold weak loc := by
  have hstrong : strong ≠ [] := by
    intro h
    rw [h] at h3
    simp at h3
  have hweak : weak ≠ [] := by
    intro h
    rw [h] at h5
    simp at h5
  have h3' : ¬ strong.length ≤ 5 := by omega
  have h5' : ¬ weak.length ≤ 5 := by omega
  have h6' : ¬ (mkRat 2 5 < maxScore weak) := not_lt.mpr h6
  refine ⟨?_, ?_, ?_, ?_⟩
  · simp [minScoreThreshold, h1, h2]
  · simp [minScoreThreshold, hstrong, h3', h4]
  · simp [minScoreThreshold, hweak, h5', h6']
  · simp only [minScoreThreshold, hstrong, hweak, ne_eq, not_false_eq_true,
      if_true, h3', h5', if_false, h4, h6']
    decide

/-- **C2**, counterexample to the claim as stated: with six surviving
candidates, a batch containing a strong match (maximum score `0.5 > 0.4`)
gets the floor `0.2`, while a batch of only weak matches (maximum `0.3`)
gets the *stricter* floor `0.25` — the opposite of the claimed direction
("stricter when strong matches exist"). A second conjunct shows the
"at most 5 survivors" floor is not `0.15` either when zero candidates
survive and a location was given. -/
theorem claim_C2_counterexample :
    mkRat 2 5 < maxScore [(mkRat 1 2, blankListing), (0, blankListing),
        (0, blankListing), (0, blankListing), (0, blankListing), (0, blankListing)] ∧
    maxScore [(mkRat 3 10, blankListing), (mkRat 3 10, blankListing),
        (mkRat 3 10, blankListing), (mkRat 3 10, blankListing),
        (mkRat 3 10, blankListing), (mkRat 3 10, blankListing)] ≤ mkRat 2 5 ∧
    minScoreThreshold [(mkRat 1 2, blankListing), (0, blankListing),
        (0, blankListing), (0, blankListing), (0, blankListing), (0, blankListing)] [] <
      minScoreThreshold [(mkRat 3 10, blankListing), (mkRat 3 10, blankListing),
        (mkRat 3 10, blankListing), (mkRat 3 10, blankListing),
        (mkRat 3 10, blankListing), (mkRat 3 10, blankListing)] [] ∧
    minScoreThreshold [] ( "bangalore".toList) = mkRat 1 5 := by
  refine ⟨?_, ?_, ?_, ?_⟩ <;> decide

/-- **C2**, witness: concrete lists instantiating the amended theorem. -/
theorem claim_C2_witness :
    ([( (0 : ℚ), blankListing)] ≠ ([] : List (ℚ × Listing)) ∧
      [((0 : ℚ), blankListing)].length ≤ 5 ∧
      5 < [(mkRat 1 2, blankListing), ((0 : ℚ), blankListing), (0, blankListing),
        (0, blankListing), (0, blankListing), (0, blankListing)].length ∧
      mkRat 2 5 < maxScore [(mkRat 1 2, blankListing), (0, blankListing),
        (0, blankListing), (0, blankListing), (0, blankListing), (0, blankListing)] ∧
      5 < [(mkRat 3 10, blankListing), (mkRat 3 10, blankListing),
        (mkRat 3 10, blankListing), (mkRat 3 10, blankListing),
        (mkRat 3 10, blankListing), (mkRat 3 10, blankListing)].length ∧
      maxScore [(mkRat 3 10, blankListing), (mkRat 3 10, blankListing),
        (mkRat 3 10, blankListing), (mkRat 3 10, blankListing),
        (mkRat 3 10, blankListing), (mkRat 3 10, blankListing)] ≤ mkRat 2 5) ∧
    minScoreThreshold [((0 : ℚ), blankListing)] ( "bangalore".toList) = mkRat 3 20 := by
  refine ⟨⟨by decide, by decide, by decide, by decide, by decide, by decide⟩, ?_⟩
  exact (claim_C2 [((0 : ℚ), blankListing)]
    [(mkRat 1 2, blankListing), (0, blankListing), (0, blankListing),
      (0, blankListing), (0, blankListing), (0, blankListing)]
    [(mkRat 3 10, blankListing), (mkRat 3 10, blankListing),
      (mkRat 3 10, blankListing), (mkRat 3 10, blankListing),
      (mkRat 3 10, blankListing), (mkRat 3 10, blankListing)]
    ( "bangalore".toList) (by decide) (by decide) (by decide) (by decide)
    (by decide) (by decide)).1

theorem take_one_append {α : Type} (l1 l2 : List α) (h : l1 ≠ []) :
    (l1 ++ l2).take 1 = l1.take 1 := by
  cases l1 with
  | nil => exact absurd rfl h
  | cons x xs => simp

/-- **C7** (amended). When an earlier source's list `A` contains a listing
`a`, the aggregated (concatenated then deduplicated) output contains
exactly one entry whose `(lowercased title, lowercased company)` key
equals `a`'s, and it is the first such entry of `A` — i.e. the entry from
the source that comes first in the iteration order. (The key is only
case-insensitive: whitespace differences are *not* collapsed, see the
counterexample.) -/
theorem claim_C7 (A B : List Listing) (a : Listing) (h : a ∈ A) :
    ((dedupListings (A ++ B)).filter
        (fun x => decide (listingKey x = listingKey a))).length = 1 ∧
    (dedupListings (A ++ B)).filter (fun x => decide (listingKey x = listingKey a)) =
      (A.filter (fun x => decide (listingKey x = listingKey a))).take 1 := by
  unfold dedupListings
  have hfa : a ∈ A.filter (fun x => decide (listingKey x = listingKey a)) :=
    List.mem_filter.mpr ⟨h, by simp⟩
  have hne : A.filter (fun x => decide (listingKey x = listingKey a)) ≠ [] :=
    List.ne_nil_of_mem hfa
  have hchar := dedupGo_filter_key (listingKey a) (A ++ B) []
  simp only [List.not_mem_nil, if_false] at hchar
  rw [List.filter_append, take_one_append _ _ hne] at hchar
  refine ⟨?_, hchar⟩
  rw [hchar]
  cases hA : A.filter (fun x => decide (listingKey x = listingKey a)) with
  | nil => exact absurd hA hne
  | cons x xs => simp

/-- Counterexample listings for C7: identical `(title, company)` up to
letter case *and whitespace* (double space, trailing space), from two
different sources. -/
def cexWsA : Listing :=
  { title := "Software Intern".toList, company := "Acme".toList,
    location := "X".toList, description := "d".toList,
    source := "Indeed".toList, url := [] }

def cexWsB : Listing :=
  { title := "software  intern".toList, company := "ACME ".toList,
    location := "Y".toList, description := "d".toList,
    source := "Glassdoor".toList, url := [] }

/-- The spec's notion of "identical up to letter case and whitespace":
lowercase, then compare whitespace-separated tokens. -/
def wsCaseKey (x : Listing) : List Str × List Str :=
  (splitWs (toLowerStr x.title), splitWs (toLowerStr x.company))

/-- **C7**, counterexample to the claim as stated: `cexWsA` and `cexWsB`
have `(title, company)` pairs identical up to case and whitespace, but the
dedup key (`title.lower(), company.lower()`) does not collapse whitespace,
so the aggregated output keeps *both* entries instead of exactly one. -/
theorem claim_C7_counterexample :
    wsCaseKey cexWsA = wsCaseKey cexWsB ∧
    listingKey cexWsA ≠ listingKey cexWsB ∧
    dedupListings ([cexWsA] ++ [cexWsB]) = [cexWsA, cexWsB] := by
  refine ⟨?_, ?_, ?_⟩ <;> decide

/-- Listing differing from `cexWsA` only in letter case. -/
def cexCaseB : Listing :=
  { title := "SOFTWARE INTERN".toList, company := "ACME".toList,
    location := "Y".toList, description := "d".toList,
    source := "Glassdoor".toList, url := [] }

/-- **C7**, witness: for two sources contributing listings with the same
key up to letter case, the aggregate keeps exactly the first source's
entry. -/
theorem claim_C7_witness :
    cexWsA ∈ [cexWsA] ∧
    listingKey cexCaseB = listingKey cexWsA ∧
    ((dedupListings ([cexWsA] ++ [cexCaseB])).filter
        (fun x => decide (listingKey x = listingKey cexWsA))).length = 1 ∧
    (dedupListings ([cexWsA] ++ [cexCaseB])).filter
        (fun x => decide (listingKey x = listingKey cexWsA)) =
      ([cexWsA].filter (fun x => decide (listingKey x = listingKey cexWsA))).take 1 :=
  ⟨by decide, by decide,
    (claim_C7 [cexWsA] [cexCaseB] cexWsA (by decide)).1,
    (claim_C7 [cexWsA] [cexCaseB] cexWsA (by decide)).2⟩

theorem dedupFormatGo_length_le (q : Str) :
    ∀ (l : List Listing) (seen : List (Str × Str)),
      (dedupFormatGo q l seen).length ≤ l.length := by
  intro l
  induction l with
  | nil => intro seen; simp [dedupFormatGo]
  | cons x xs ih =>
    intro seen
    simp only [dedupFormatGo]
    split
    · exact Nat.le_trans (ih seen) (Nat.le_succ _)
    · simpa using ih (listingKey x :: seen)

/-- The six source identifiers are pairwise distinct, so the sum of their
occurrence counts in any list is at most the list's length. -/
theorem srcNames_counts_le (S : List Str) :
    S.count srcIndeed + S.count srcLinkedin + S.count srcGlassdoor +
    S.count srcInternshipsCom + S.count srcSkillIndia +
    S.count srcSkillIndiaDigital ≤ S.length := by
  induction S with
  | nil => simp
  | cons x xs ih =>
    have hstep : (x :: xs).count srcIndeed + (x :: xs).count srcLinkedin +
        (x :: xs).count srcGlassdoor + (x :: xs).count srcInternshipsCom +
        (x :: xs).count srcSkillIndia + (x :: xs).count srcSkillIndiaDigital ≤
        (xs.count srcIndeed + xs.count srcLinkedin + xs.count srcGlassdoor +
          xs.count srcInternshipsCom + xs.count srcSkillIndia +
          xs.count srcSkillIndiaDigital) + 1 := by
      by_cases h1 : srcIndeed = x
      · subst h1
        simp [List.count_cons, beq_iff_eq,
          show srcLinkedin ≠ srcIndeed from by decide,
          show srcGlassdoor ≠ srcIndeed from by decide,
          show srcInternshipsCom ≠ srcIndeed from by decide,
          show srcSkillIndia ≠ srcIndeed from by decide,
          show srcSkillIndiaDigital ≠ srcIndeed from by decide]
        omega
      · by_cases h2 : srcLinkedin = x
        · subst h2
          simp [List.count_cons, beq_iff_eq, h1,
            show srcGlassdoor ≠ srcLinkedin from by decide,
            show srcInternshipsCom ≠ srcLinkedin from by decide,
            show srcSkillIndia ≠ srcLinkedin from by decide,
            show srcSkillIndiaDigital ≠ srcLinkedin from by decide]
          omega
        · by_cases h3 : srcGlassdoor = x
          · subst h3
            simp [List.count_cons, beq_iff_eq, h1, h2,
              show srcInternshipsCom ≠ srcGlassdoor from by decide,
              show srcSkillIndia ≠ srcGlassdoor from by decide,
              show srcSkillIndiaDigital ≠ srcGlassdoor from by decide]
            omega
          · by_cases h4 : srcInternshipsCom = x
            · subst h4
              simp [List.count_cons, beq_iff_eq, h1, h2, h3,
                show srcSkillIndia ≠ srcInternshipsCom from by decide,
                show srcSkillIndiaDigital ≠ srcInternshipsCom from by decide]
              omega
            · by_cases h5 : srcSkillIndia = x
              · subst h5
                simp [List.count_cons, beq_iff_eq, h1, h2, h3, h4,
                  show srcSkillIndiaDigital ≠ srcSkillIndia from by decide]
                omega
              · by_cases h6 : srcSkillIndiaDigital = x
                · subst h6
                  simp [List.count_cons, beq_iff_eq, h1, h2, h3, h4, h5]
                  omega
                · simp [List.count_cons, beq_iff_eq, h1, h2, h3, h4, h5, h6]
    simp only [List.length_cons]
    omega

/-- Per-source cap `B` on scraper outputs bounds the endpoint's collected
pool by `B × |sources|`: each of the five gated dispatches requires its
identifier to occur in the source list, and the identifiers are distinct. -/
theorem gatherAll_length_le (sources : List Str)
    (fetch : Str → Except Str (List Listing)) (B : Nat)
    (hB : ∀ s, (runSource fetch s).length ≤ B) :
    (gatherAll sources fetch).length ≤ B * sources.length := by
  have hgate : ∀ (name : Str),
      (if name ∈ sources then runSource fetch name else []).length ≤
        sources.count name * B := by
    intro name
    split
    · next hmem =>
      calc (runSource fetch name).length ≤ B := hB name
        _ = 1 * B := (Nat.one_mul B).symm
        _ ≤ sources.count name * B :=
          Nat.mul_le_mul_right B (List.count_pos_iff.mpr hmem)
    · simp
  have hskill :
      (if srcSkillIndia ∈ sources ∨ srcSkillIndiaDigital ∈ sources then
        runSource fetch srcSkillIndia else []).length ≤
      (sources.count srcSkillIndia + sources.count srcSkillIndiaDigital) * B := by
    split
    · next hmem =>
      have hcnt : 1 ≤ sources.count srcSkillIndia + sources.count srcSkillIndiaDigital := by
        rcases hmem with hmem | hmem
        · have := List.count_pos_iff.mpr hmem
          omega
        · have := List.count_pos_iff.mpr hmem
          omega
      calc (runSource fetch srcSkillIndia).length ≤ B := hB _
        _ = 1 * B := (Nat.one_mul B).symm
        _ ≤ _ := Nat.mul_le_mul_right B hcnt
    · simp
  unfold gatherAll
  simp only [List.length_append]
  have hcounts := srcNames_counts_le sources
  calc (if srcIndeed ∈ sources then runSource fetch srcIndeed else []).length +
        (if srcLinkedin ∈ sources then runSource fetch srcLinkedin else []).length +
        (if srcGlassdoor ∈ sources then runSource fetch srcGlassdoor else []).length +
        (if srcInternshipsCom ∈ sources then runSource fetch srcInternshipsCom else []).length +
        (if srcSkillIndia ∈ sources ∨ srcSkillIndiaDigital ∈ sources then
          runSource fetch srcSkillIndia else []).length
      ≤ sources.count srcIndeed * B + sources.count srcLinkedin * B +
        sources.count srcGlassdoor * B + sources.count srcInternshipsCom * B +
        (sources.count srcSkillIndia + sources.count srcSkillIndiaDigital) * B := by
        have g1 := hgate srcIndeed
        have g2 := hgate srcLinkedin
        have g3 := hgate srcGlassdoor
        have g4 := hgate srcInternshipsCom
        omega
    _ = (sources.count srcIndeed + sources.count srcLinkedin +
        sources.count srcGlassdoor + sources.count srcInternshipsCom +
        sources.count srcSkillIndia + sources.count srcSkillIndiaDigital) * B := by
        ring
    _ ≤ sources.length * B := Nat.mul_le_mul_right B hcounts
    _ = B * sources.length := Nat.mul_comm _ _

/-- **C1** (amended). For any request and any per-source scraper outcomes
respecting the code's per-source cap — at most
`2 × max(10, max_results // |sources|)` listings per source, the factor 2
coming from the `max_results * 2` parse limit of the Selenium path — the
synchronous harvest endpoint returns at most
`2 × max(10, max_results // |sources|) × |sources|` listings (for the
resolved source list), and `total_results` always equals the length of
the returned `opportunities` sequence (in particular it is a natural
number, never negative or missing). The originally claimed bound
`max_results × |sources|` fails because of the `max(10, ·)` floor; see
the counterexample. -/
theorem claim_C1 (req : ScrapeRequest) (fetch : Str → Except Str (List Listing))
    (hcap : ∀ s, (runSource fetch s).length ≤
      2 * maxPerSource req (resolveSources req.sources)) :
    (scrape_internships req fetch).total_results =
      (scrape_internships req fetch).opportunities.length ∧
    (scrape_internships req fetch).opportunities.length ≤
      2 * maxPerSource req (resolveSources req.sources) *
        (resolveSources req.sources).length := by
  constructor
  · rfl
  · show (dedupFormatGo req.query (gatherAll (resolveSources req.sources) fetch)
        []).length ≤ _
    exact Nat.le_trans
      (dedupFormatGo_length_le req.query (gatherAll (resolveSources req.sources) fetch) [])
      (gatherAll_length_le (resolveSources req.sources) fetch _ hcap)

/-- Ten listings with pairwise-distinct titles, within a single source's
cap for `max_per_source = 10`. -/
def cexTenListings : List Listing :=
  ( "abcdefghij".toList).map (fun c =>
    { title := [c], company := "C".toList, location := "L".toList,
      description := "D".toList, source := "Indeed".toList, url := [] })

/-- Request with `max_results = 1` and a single requested source. -/
def cexReqC1 : ScrapeRequest :=
  { query := "x".toList, location := [], max_results := 1,
    sources := [srcIndeed] }

/-- Scraper outcomes: Indeed yields ten listings (which respects the
code's own per-source request of `max_per_source = max(10, 1 // 2) = 10`),
every other source yields nothing. -/
def cexFetchC1 : Str → Except Str (List Listing) := fun s =>
  if s = srcIndeed then .ok cexTenListings else .ok []

/-- **C1**, counterexample to the claim as stated: with `max_results = 1`
and one requested source, the endpoint returns 10 listings — more than
`max_results × |sources|` whether `|sources|` counts the requested source
list (1) or the resolved one (2) — even though every per-source outcome
respects the per-source count the endpoint itself requested
(`max_per_source = 10`). -/
theorem claim_C1_counterexample :
    (∀ s, (runSource cexFetchC1 s).length ≤
      maxPerSource cexReqC1 (resolveSources cexReqC1.sources)) ∧
    (scrape_internships cexReqC1 cexFetchC1).total_results = 10 ∧
    cexReqC1.max_results * cexReqC1.sources.length = 1 ∧
    cexReqC1.max_results * (resolveSources cexReqC1.sources).length = 2 ∧
    2 < (scrape_internships cexReqC1 cexFetchC1).total_results := by
  refine ⟨?_, by decide, by decide, by decide, by decide⟩
  intro s
  unfold cexFetchC1 runSource
  by_cases hs : s = srcIndeed
  · subst hs
    decide
  · simp only [hs, if_false]
    decide

/-- **C1**, witness: a request with no explicit sources and one listing
from Indeed, instantiating the amended theorem. -/
def wReqC1 : ScrapeRequest :=
  { query := "x".toList, location := [], max_results := 20, sources := [] }

def wFetchC1 : Str → Except Str (List Listing) := fun s =>
  if s = srcIndeed then .ok [cexWsA] else .ok []

theorem claim_C1_witness :
    (∀ s, (runSource wFetchC1 s).length ≤
      2 * maxPerSource wReqC1 (resolveSources wReqC1.sources)) ∧
    (scrape_internships wReqC1 wFetchC1).total_results =
      (scrape_internships wReqC1 wFetchC1).opportunities.length ∧
    (scrape_internships wReqC1 wFetchC1).opportunities.length ≤
      2 * maxPerSource wReqC1 (resolveSources wReqC1.sources) *
        (resolveSources wReqC1.sources).length := by
  have hcap : ∀ s, (runSource wFetchC1 s).length ≤
      2 * maxPerSource wReqC1 (resolveSources wReqC1.sources) := by
    intro s
    unfold wFetchC1 runSource
    by_cases hs : s = srcIndeed
    · subst hs
      decide
    · simp only [hs, if_false]
      decide
  exact ⟨hcap, (claim_C1 wReqC1 wFetchC1 hcap).1, (claim_C1 wReqC1 wFetchC1 hcap).2⟩

/-- The claim's trigger list, which additionally includes `position`
(`spec.md` §4.3); the code's list at line 615 does not. -/
def escalationTriggerSpec (title : Str) : Prop :=
  title = [] ∨ title.length < 5 ∨
    toLowerStr title ∈ ([ "intern", "internship", "job", "position" ].map String.toList)

instance (title : Str) : Decidable (escalationTriggerSpec title) := by
  unfold escalationTriggerSpec; infer_instance

/-- **C9** (amended). Whenever the first-found title candidate is empty,
shorter than 5 characters, or case-insensitively equal to one of the
generic placeholders `intern`, `internship`, or `job` (the code's list —
`position` is *not* in it), the extractor escalates: nested link text,
then nested span text (each adopted when non-empty and strictly longer),
then — if the result is still empty or shorter than 5 characters — the
first line (or first sentence) of the container's flattened text,
truncated to 100 characters. -/
theorem claim_C9 (title : Str) (nestedLink nestedSpan : Option Str) (allText : Str)
    (h : escalationTrigger title) :
    escalateTitle title nestedLink nestedSpan allText =
      flattenedTextStep allText
        (nestedSpanStep nestedSpan (nestedLinkStep nestedLink title)) := by
  unfold escalationTrigger at h
  unfold escalateTitle
  rw [if_pos h]
  rfl

/-- **C9**, counterexample to the claim as stated: the title `Position`
(8 characters, lowercased equal to the claimed placeholder `position`)
triggers per the claim, yet the extractor does not escalate — the nested
link text is longer and non-empty but the returned title is unchanged. -/
theorem claim_C9_counterexample :
    escalationTriggerSpec ( "Position".toList) ∧
    ( "Position".toList).length < ( "Software Engineering Intern".toList).length ∧
    escalateTitle ( "Position".toList) (some ( "Software Engineering Intern".toList))
        none ( "some card text. more".toList) = "Position".toList := by
  refine ⟨?_, ?_, ?_⟩ <;> decide

/-- **C9**, witness: the generic title `job` escalates through the
cascade. -/
theorem claim_C9_witness :
    escalationTrigger ( "job".toList) ∧
    escalateTitle ( "job".toList) (some ( "Software Intern Role".toList)) none
        ( "card text".toList) =
      flattenedTextStep ( "card text".toList)
        (nestedSpanStep none
          (nestedLinkStep (some ( "Software Intern Role".toList)) ( "job".toList))) :=
  ⟨by decide,
    claim_C9 ( "job".toList) (some ( "Software Intern Role".toList)) none
      ( "card text".toList) (by decide)⟩

/-- Every entry of the dedup-and-format loop's output is the formatted
image of some input listing. -/
theorem dedupFormatGo_mem {q : Str} :
    ∀ {l : List Listing} {seen : List (Str × Str)} {f : Formatted},
      f ∈ dedupFormatGo q l seen → ∃ x ∈ l, f = formatListing q x := by
  intro l
  induction l with
  | nil => intro seen f hf; simp [dedupFormatGo] at hf
  | cons x xs ih =>
    intro seen f hf
    simp only [dedupFormatGo] at hf
    split at hf
    · rcases ih hf with ⟨y, hy, hfy⟩
      exact ⟨y, List.mem_cons_of_mem _ hy, hfy⟩
    · rcases List.mem_cons.mp hf with hf | hf
      · exact ⟨x, List.mem_cons_self _ _, hf⟩
      · rcases ih hf with ⟨y, hy, hfy⟩
        exact ⟨y, List.mem_cons_of_mem _ hy, hfy⟩

/-- **C10** (confirmed). Every listing in the synchronous response and in
the streaming endpoint's final payload carries `matchScore` determined
only by its source label: 70 for the `Sample` source and 80 for every
other source — never the scorer's relevance score. -/
theorem claim_C10 (req : ScrapeRequest) (fetch : Str → Except Str (List Listing))
    (f : Formatted)
    (hf : f ∈ (scrape_internships req fetch).opportunities ∨
      f ∈ (scrape_internships_stream_final req fetch).2) :
    f.matchScore = if f.source = "Sample".toList then 70 else 80 := by
  have hform : ∃ x, f = formatListing req.query x := by
    rcases hf with hf | hf
    · rcases dedupFormatGo_mem hf with ⟨x, _, hx⟩
      exact ⟨x, hx⟩
    · rcases dedupFormatGo_mem hf with ⟨x, _, hx⟩
      exact ⟨x, hx⟩
  rcases hform with ⟨x, rfl⟩
  show (if x.source ≠ "Sample".toList then 80 else 70) = _
  by_cases hs : x.source = "Sample".toList
  · simp [formatListing, hs]
  · simp [formatListing, hs]

/-- **C10**, witness: the single Indeed listing of the C1 witness setup
appears in the synchronous response with `matchScore = 80`. -/
theorem claim_C10_witness :
    formatListing wReqC1.query cexWsA ∈
      (scrape_internships wReqC1 wFetchC1).opportunities ∧
    (formatListing wReqC1.query cexWsA).matchScore =
      (if (formatListing wReqC1.query cexWsA).source = "Sample".toList then 70
        else 80) :=
  ⟨by decide,
    claim_C10 wReqC1 wFetchC1 (formatListing wReqC1.query cexWsA)
      (Or.inl (by decide))⟩

theorem isEmpty_false_iff {α : Type} (l : List α) : l.isEmpty = false ↔ l ≠ [] := by
  cases l <;> simp

theorem staticFilterRank_ne_nil (parsed : List Listing) (query loc : Str)
    (m : Nat) (hne : parsed ≠ []) (hm : 1 ≤ m) :
    staticFilterRank parsed query loc m ≠ [] := by
  unfold staticFilterRank
  intro hcontra
  have hlen := congrArg List.length hcontra
  simp only [List.length_map, List.length_take, sortDesc_length, List.length_nil] at hlen
  have hp : 1 ≤ parsed.length := List.length_pos.mpr hne
  set scored := parsed.map (fun j =>
    (calcRelevanceScore j.title j.description j.location query loc, j)) with hscored
  have hslen : scored.length = parsed.length := by
    rw [hscored, List.length_map]
  set ms := minScoreThreshold scored (toLowerStr loc) with hms
  set filtered := scored.filter (fun p => ms ≤ p.1) with hfiltered
  by_cases hf : filtered = []
  · simp only [hf, if_true] at hlen
    simp only [List.length_take, sortDesc_length, hslen] at hlen
    omega
  · simp only [hf, if_false] at hlen
    have : 1 ≤ filtered.length := List.length_pos.mpr hf
    omega

/-- **C6** (confirmed). Within one `scrape_indeed` call whose static-path
parse respects the `max_results * 2` limit the code itself passes to
`_parse_indeed_html`, the strategies attempted form, in order, one of
`[static]`, `[static, rendered]`, `[static, feed]` (Selenium not
installed), or `[static, rendered, feed]`; if the static strategy yields
at least one parseable extraction result only `[static]` is attempted and
the filtered results are returned immediately; and if the rendered
strategy was attempted and yielded a non-empty parse, the chain stops at
`[static, rendered]` and returns that parse directly. -/
theorem claim_C6 (env : IndeedEnv) (query loc : Str) (maxResults : Nat)
    (hparse : staticParsedLen env ≤ 2 * maxResults) :
    ((scrape_indeed_run env query loc maxResults).2 = [Strategy.staticS] ∨
     (scrape_indeed_run env query loc maxResults).2 =
       [Strategy.staticS, Strategy.renderedS] ∨
     (scrape_indeed_run env query loc maxResults).2 =
       [Strategy.staticS, Strategy.feedS] ∨
     (scrape_indeed_run env query loc maxResults).2 =
       [Strategy.staticS, Strategy.renderedS, Strategy.feedS]) ∧
    (staticYields env = true →
      (scrape_indeed_run env query loc maxResults).2 = [Strategy.staticS]) ∧
    (∀ l, env.seleniumResult = some l → l ≠ [] →
      Strategy.renderedS ∈ (scrape_indeed_run env query loc maxResults).2 →
      (scrape_indeed_run env query loc maxResults).2 =
        [Strategy.staticS, Strategy.renderedS] ∧
      (scrape_indeed_run env query loc maxResults).1 = l) := by
  by_cases hstatic : staticYields env = true
  · -- the static strategy yields ≥1 parse result: it returns, alone
    rcases henv : env.staticFetch with e | r
    · unfold staticYields at hstatic
      rw [henv] at hstatic
      exact absurd hstatic (by simp)
    · unfold staticYields at hstatic
      rw [henv] at hstatic
      simp only [Bool.and_eq_true, beq_iff_eq, Bool.not_eq_true',
        isEmpty_false_iff] at hstatic
      have hcond : r.status = 200 ∧ r.blocked = false ∧ r.noJobs = false ∧
          r.parsed ≠ [] :=
        ⟨hstatic.1.1.1, hstatic.1.1.2, hstatic.1.2, hstatic.2⟩
      have hplen : r.parsed.length ≤ 2 * maxResults := by
        unfold staticParsedLen at hparse
        rw [henv] at hparse
        exact hparse
      have hp1 : 1 ≤ r.parsed.length := List.length_pos.mpr hcond.2.2.2
      have hm : 1 ≤ maxResults := by omega
      have hfinal := staticFilterRank_ne_nil r.parsed query loc maxResults
        hcond.2.2.2 hm
      have hrun : scrape_indeed_run env query loc maxResults =
          (staticFilterRank r.parsed query loc maxResults, [Strategy.staticS]) := by
        unfold scrape_indeed_run
        rw [henv]
        simp only [if_pos hcond, ne_eq, hfinal, not_false_eq_true, if_true]
      rw [hrun]
      refine ⟨Or.inl rfl, fun _ => rfl, ?_⟩
      intro l _ _ hmem
      simp at hmem
  · -- the static strategy yields nothing: fall through the chain
    have hatt : (scrape_indeed_run env query loc maxResults).2 =
        Strategy.staticS ::
          (if env.seleniumAvailable then
            match env.seleniumResult with
            | some l =>
              if l ≠ [] then [Strategy.renderedS]
              else [Strategy.renderedS, Strategy.feedS]
            | none => [Strategy.renderedS, Strategy.feedS]
          else [Strategy.feedS]) := by
      unfold scrape_indeed_run
      rcases henv : env.staticFetch with e | r
      · rcases hsel : env.seleniumAvailable with _ | _ <;>
          rcases hres : env.seleniumResult with _ | l0
        · rfl
        · by_cases hl0 : l0 = [] <;> simp [hl0]
        · rfl
        · by_cases hl0 : l0 = [] <;> simp [hl0]
      · have hcond : ¬ (r.status = 200 ∧ r.blocked = false ∧ r.noJobs = false ∧
            r.parsed ≠ []) := by
          intro hc
          apply hstatic
          unfold staticYields
          rw [henv]
          simp [hc.1, hc.2.1, hc.2.2.1, (isEmpty_false_iff r.parsed).mpr hc.2.2.2]
        simp only [if_neg hcond]
        rcases hsel : env.seleniumAvailable with _ | _ <;>
          rcases hres : env.seleniumResult with _ | l0
        · rfl
        · by_cases hl0 : l0 = [] <;> simp [hl0]
        · rfl
        · by_cases hl0 : l0 = [] <;> simp [hl0]
    refine ⟨?_, fun hy => absurd hy hstatic, ?_⟩
    · rw [hatt]
      rcases hsel : env.seleniumAvailable with _ | _ <;>
        rcases hres : env.seleniumResult with _ | l0
      · simp
      · simp
      · simp
      · by_cases hl0 : l0 = [] <;> simp [hl0]
    · intro l hsome hlne hmem
      have hsel : env.seleniumAvailable = true := by
        by_contra hsel
        rw [hatt] at hmem
        simp only [Bool.not_eq_true] at hsel
        simp [hsel] at hmem
      have hatt2 : (scrape_indeed_run env query loc maxResults).2 =
          [Strategy.staticS, Strategy.renderedS] := by
        rw [hatt, hsel, hsome]
        simp [hlne]
      refine ⟨hatt2, ?_⟩
      -- first component: the Selenium parse result is returned directly
      have hres1 : (scrape_indeed_run env query loc maxResults).1 = l := by
        unfold scrape_indeed_run
        rcases henv : env.staticFetch with e | r
        · simp [hsel, hsome, hlne]
        · have hcond : ¬ (r.status = 200 ∧ r.blocked = false ∧ r.noJobs = false ∧
              r.parsed ≠ []) := by
            intro hc
            apply hstatic
            unfold staticYields
            rw [henv]
            simp [hc.1, hc.2.1, hc.2.2.1, (isEmpty_false_iff r.parsed).mpr hc.2.2.2]
          simp only [if_neg hcond]
          simp [hsel, hsome, hlne]
      exact hres1

/-- Environment for the C6 witness: a successful static fetch with one
parseable listing. -/
def wEnvC6 : IndeedEnv :=
  { staticFetch :=
      .ok { status := 200, blocked := false, noJobs := false, parsed := [cexWsA] }
    seleniumAvailable := true
    seleniumResult := none
    rssResult := [] }

/-- **C6**, witness: with a yielding static fetch and `max_results = 10`,
only the static strategy is attempted. -/
theorem claim_C6_witness :
    staticParsedLen wEnvC6 ≤ 2 * 10 ∧
    staticYields wEnvC6 = true ∧
    (scrape_indeed_run wEnvC6 ( "software engineer".toList) ( "bangalore".toList)
        10).2 = [Strategy.staticS] :=
  ⟨by decide, by decide,
    (claim_C6 wEnvC6 ( "software engineer".toList) ( "bangalore".toList) 10
      (by decide)).2.1 (by decide)⟩

/-- Failure diagnostics of the source loop land in the log output. -/
theorem scrapeAllGo_errLog (fetch : Str → Except Str (List Listing))
    (names : List Str) (n e : Str) (hn : n ∈ names) (he : fetch n = .error e) :
    errLog n e ∈ (scrapeAllGo fetch names).2 := by
  induction names with
  | nil => simp at hn
  | cons m ms ih =>
    simp only [scrapeAllGo]
    rcases List.mem_cons.mp hn with h | h
    · subst h
      refine List.mem_append_left _ ?_
      simp [sourceStep, he]
    · exact List.mem_append_right _ (ih h)

/-- **C8** (confirmed). Per-source failures are caught at the per-source
boundary: in the scraper-side aggregator a failing source contributes the
empty list plus the diagnostic line `Error scraping {name}: {reason}`,
which appears in the log output of `scrape_all_sources`; and when every
per-source scraper call fails (so each contributes the empty list), the
synchronous harvest endpoint still returns a structurally successful
response: success indicator `true`, `total_results = 0`, an empty
`opportunities` list, and the attempted source list as provenance. -/
theorem claim_C8 :
    (∀ (fetch : Str → Except Str (List Listing)) (n e : Str),
      n ∈ scraperSourceNames → fetch n = .error e →
      sourceStep fetch n = ([], [errLog n e]) ∧
      errLog n e ∈ (scrape_all_sources fetch).2) ∧
    (∀ (req : ScrapeRequest) (fetch2 : Str → Except Str (List Listing)),
      (∀ s, ∃ r, fetch2 s = .error r) →
      (scrape_internships req fetch2).success = true ∧
      (scrape_internships req fetch2).total_results = 0 ∧
      (scrape_internships req fetch2).opportunities = [] ∧
      (scrape_internships req fetch2).scraped_sources = resolveSources req.sources) := by
  constructor
  · intro fetch n e hn he
    constructor
    · simp [sourceStep, he]
    · exact scrapeAllGo_errLog fetch scraperSourceNames n e hn he
  · intro req fetch2 hfail
    have hrs : ∀ s, runSource fetch2 s = [] := by
      intro s
      rcases hfail s with ⟨r, hr⟩
      unfold runSource
      rw [hr]
    have hgather : gatherAll (resolveSources req.sources) fetch2 = [] := by
      unfold gatherAll
      simp [hrs]
    refine ⟨rfl, ?_, ?_, rfl⟩
    · show (dedupFormatGo req.query (gatherAll (resolveSources req.sources) fetch2)
        []).length = 0
      rw [hgather]
      rfl
    · show dedupFormatGo req.query (gatherAll (resolveSources req.sources) fetch2)
        [] = []
      rw [hgather]
      rfl

/-- **C8**, witness: every source fails with reason `connection refused`. -/
theorem claim_C8_witness :
    ("Indeed".toList ∈ scraperSourceNames ∧
      (fun _ : Str => (Except.error ( "connection refused".toList) :
        Except Str (List Listing))) ( "Indeed".toList) =
        .error ( "connection refused".toList)) ∧
    errLog ( "Indeed".toList) ( "connection refused".toList) ∈
      (scrape_all_sources (fun _ =>
        .error ( "connection refused".toList))).2 ∧
    (scrape_internships wReqC1 (fun _ =>
        .error ( "connection refused".toList))).success = true ∧
    (scrape_internships wReqC1 (fun _ =>
        .error ( "connection refused".toList))).total_results = 0 ∧
    (scrape_internships wReqC1 (fun _ =>
        .error ( "connection refused".toList))).opportunities = [] ∧
    (scrape_internships wReqC1 (fun _ =>
        .error ( "connection refused".toList))).scraped_sources =
      resolveSources wReqC1.sources := by
  have h1 := (claim_C8.1 (fun _ => .error ( "connection refused".toList))
    ( "Indeed".toList) ( "connection refused".toList) (by decide) rfl).2
  have h2 := claim_C8.2 wReqC1 (fun _ => .error ( "connection refused".toList))
    (fun _ => ⟨ "connection refused".toList, rfl⟩)
  exact ⟨⟨by decide, rfl⟩, h1, h2.1, h2.2.1, h2.2.2.1, h2.2.2.2⟩
